import Mathlib

/-
Verification of the payout reconciliation tool.

Embedding notes:
- Money amounts are modelled as exact rationals (ℚ).  The classification
  comparison `abs(excel - pasted) <= 0.01` runs on Python floats, so it is
  mirrored in IEEE binary64: the subtraction is rounded to the nearest
  double and the literal 0.01 denotes the double nearest 1/100.
- Strings are modelled with ASCII-only case folding; all join keys and method
  labels in the program are ASCII.
- Python dicts keep insertion order; pandas groupby sorts group keys.  Group
  KEY ORDER is irrelevant to every property proved here, so grouping is
  modelled in first-occurrence order.
- A Python exception that escapes `reconcile_data` (it is re-raised by the
  outer handler) is modelled by an `Option.none` result.
-/

/-! ### ASCII string primitives (structural, so that concrete evaluation works) -/

def isWsChar (c : Char) : Bool := c == ' ' || c == '\t' || c == '\n' || c == '\r'

def lcChar (c : Char) : Char :=
  if 65 ≤ c.toNat ∧ c.toNat ≤ 90 then Char.ofNat (c.toNat + 32) else c

def ucChar (c : Char) : Char :=
  if 97 ≤ c.toNat ∧ c.toNat ≤ 122 then Char.ofNat (c.toNat - 32) else c

def lowerStr (s : String) : String := ⟨s.data.map lcChar⟩

def upperStr (s : String) : String := ⟨s.data.map ucChar⟩

def trimChars (l : List Char) : List Char :=
  ((l.dropWhile isWsChar).reverse.dropWhile isWsChar).reverse

def trimStr (s : String) : String := ⟨trimChars s.data⟩

def wordsAux : List Char → List Char → List (List Char)
  | acc, [] => if acc.isEmpty then [] else [acc.reverse]
  | acc, c :: t =>
    if isWsChar c then (if acc.isEmpty then wordsAux [] t else acc.reverse :: wordsAux [] t)
    else wordsAux (c :: acc) t

def splitWsStr (s : String) : List String := (wordsAux [] s.data).map (fun l => ⟨l⟩)

def splitCharAux (sep : Char) : List Char → List Char → List (List Char)
  | acc, [] => [acc.reverse]
  | acc, c :: t =>
    if c == sep then acc.reverse :: splitCharAux sep [] t else splitCharAux sep (c :: acc) t

def splitCharStr (sep : Char) (s : String) : List String :=
  (splitCharAux sep [] s.data).map (fun l => ⟨l⟩)

def joinSep (sep : String) : List String → String
  | [] => ""
  | [x] => x
  | x :: y :: xs => x ++ sep ++ joinSep sep (y :: xs)

def startsSeqB : List Char → List Char → Bool
  | [], _ => true
  | _ :: _, [] => false
  | a :: as, b :: bs => a == b && startsSeqB as bs

def containsSeqB (pat : List Char) : List Char → Bool
  | [] => startsSeqB pat []
  | c :: t => startsSeqB pat (c :: t) || containsSeqB pat t

def strContains (s pat : String) : Bool := containsSeqB pat.data s.data

def dedupFirstAux (seen : List String) : List String → List String
  | [] => []
  | x :: xs => if x ∈ seen then dedupFirstAux seen xs else x :: dedupFirstAux (x :: seen) xs

def dedupFirst (l : List String) : List String := dedupFirstAux [] l

/-- normEmail models the chained pandas accessors `.str.lower().str.strip()`
used on every email key comparison in `reconcile_data`. -/
def normEmail (e : String) : String := trimStr (lowerStr e)

/-! ### Model of Python `float(...)`: after stripping whitespace, an optional
sign followed by `inf`/`infinity`/`nan` (case-insensitive) or a decimal form
`digits [. digits] [(e|E) [sign] digits]` with at least one mantissa digit,
where underscores may appear between digits of a group; any other string
raises `ValueError`, modelled as `none`. -/

/-- The result of a successful `float(...)`: a finite value (held exactly as
a rational) or one of the IEEE specials. -/
inductive PyVal where
  | num (q : ℚ)
  | inf (neg : Bool)
  | nan
  deriving DecidableEq, Repr

def digitsVal (l : List Char) : ℕ := l.foldl (fun a c => 10 * a + (c.toNat - 48)) 0

/-- Maximal leading run of digits and underscores, with the remainder. -/
def duRun : List Char → List Char × List Char
  | [] => ([], [])
  | c :: t =>
    if c.isDigit || c == '_' then
      let r := duRun t
      (c :: r.1, r.2)
    else ([], c :: t)

def groupTail : List Char → Bool
  | [] => true
  | '_' :: [] => false
  | '_' :: d :: t => d.isDigit && groupTail t
  | c :: t => c.isDigit && groupTail t

/-- A nonempty digit group: digits with underscores allowed only BETWEEN
digits (`1_000` is legal, `_1`, `1_`, `1__0` are not). -/
def groupOk : List Char → Bool
  | [] => false
  | c :: t => c.isDigit && groupTail t

def stripUnd (l : List Char) : List Char := l.filter (fun c => !(c == '_'))

/-- Mantissa: `G [. G']` with at least one digit overall; returns the joined
digit value, the number of fractional digits, and the remainder. -/
def pyMantissa? (cs : List Char) : Option (ℕ × ℕ × List Char) :=
  let p1 := duRun cs
  match p1.2 with
  | '.' :: r2 =>
    let p2 := duRun r2
    if (p1.1.isEmpty || groupOk p1.1) && (p2.1.isEmpty || groupOk p2.1) &&
        !(p1.1.isEmpty && p2.1.isEmpty) then
      some (digitsVal (stripUnd p1.1 ++ stripUnd p2.1), (stripUnd p2.1).length, p2.2)
    else none
  | _ => if groupOk p1.1 then some (digitsVal (stripUnd p1.1), 0, p1.2) else none

def expDigits? (l : List Char) : Option ℕ :=
  if groupOk l then some (digitsVal (stripUnd l)) else none

/-- Optional exponent part, which must consume the whole remainder. -/
def pyExp? : List Char → Option ℤ
  | [] => some 0
  | c :: t =>
    if c == 'e' || c == 'E' then
      match t with
      | '+' :: t2 => (expDigits? t2).map (fun n => (n : ℤ))
      | '-' :: t2 => (expDigits? t2).map (fun n => -(n : ℤ))
      | t2 => (expDigits? t2).map (fun n => (n : ℤ))
    else none

/-- Exact value of a finite decimal form `mantissa * 10^exp`. -/
def pyDecimal? (cs : List Char) : Option ℚ :=
  match pyMantissa? cs with
  | none => none
  | some (n, fracLen, rest) =>
    match pyExp? rest with
    | none => none
    | some e =>
      let E : ℤ := e - (fracLen : ℤ)
      if 0 ≤ E then some (mkRat ((n : ℤ) * 10 ^ E.toNat) 1)
      else some (mkRat (n : ℤ) (10 ^ (-E).toNat))

def pyFloatVal (neg : Bool) (cs : List Char) : Option PyVal :=
  let low := cs.map lcChar
  if low = ['i', 'n', 'f'] || low = ['i', 'n', 'f', 'i', 'n', 'i', 't', 'y'] then
    some (.inf neg)
  else if low = ['n', 'a', 'n'] then some .nan
  else (pyDecimal? cs).map (fun q => .num (if neg then -q else q))

def pyFloat? (s : String) : Option PyVal :=
  match trimChars s.data with
  | '-' :: t => pyFloatVal true t
  | '+' :: t => pyFloatVal false t
  | l => pyFloatVal false l

/-- Amount carried by a successfully parsed token.  The IEEE specials
(`inf`, `nan`) are outside the exact-rational amount domain used throughout
this development and no property proved here depends on their numeric value
(only on the fact that such a line is NOT skipped), so they are collapsed
to 0. -/
def pyValQ : PyVal → ℚ
  | .num q => q
  | .inf _ => 0
  | .nan => 0

/-! ### Free-text ledger parser: `ReconciliationProcessor.parse_pasted_data` -/

/-- One output row of the parser (a row of the DataFrame built from
`final_data` in `parse_pasted_data`). -/
structure PastedRow where
  login : String
  amount : ℚ
  customer_email : Option String
  payment_method : String
  deriving DecidableEq, Repr, Inhabited

/-- One entry of the `riseworks_data` dict: `{email: {total_amount, logins}}`. -/
structure RiseEntry where
  email : String
  total_amount : ℚ
  logins : List String
  deriving DecidableEq, Repr

/-- The parser's accumulated state: the `riseworks_data` dict (insertion
order) and the `crypto_data` list. -/
structure ParseState where
  riseworks_data : List RiseEntry
  crypto_data : List PastedRow
  deriving DecidableEq, Repr

/-- `'@' in part` -/
def hasAtSign (t : String) : Bool := t.data.contains '@'

/-- `'$' in part or (part.replace(',', '').replace('.', '').isdigit() and '.' in part)` -/
def isAmountToken (t : String) : Bool :=
  t.data.contains '$' ||
    ((let stripped := t.data.filter (fun c => !(c == ',' || c == '.'))
      !stripped.isEmpty && stripped.all Char.isDigit) && t.data.contains '.')

/-- `parts[amount_idx].replace('$', '').replace(',', '')` -/
def stripMoney (t : String) : String := ⟨t.data.filter (fun c => !(c == '$' || c == ','))⟩

/-- The token scan of the Riseworks branch: walk the tokens, remembering the
index of the most recent amount-like token, until a token containing `@`
(that is not itself amount-like) is met; the pair is dropped unless both an
amount index and an email index were found. -/
def scanGo : ℕ → Option ℕ → List String → Option (ℕ × ℕ)
  | _, _, [] => none
  | i, amt, t :: ts =>
    if isAmountToken t then scanGo (i + 1) (some i) ts
    else if hasAtSign t then amt.map (fun a => (a, i))
    else scanGo (i + 1) amt ts

def scanTokens (parts : List String) : Option (ℕ × ℕ) := scanGo 0 none parts

/-- Insertion-ordered dict update for `riseworks_data[email]`. -/
def updateRise : List RiseEntry → String → ℚ → List String → List RiseEntry
  | [], em, amt, ls => [⟨em, amt, ls⟩]
  | e :: es, em, amt, ls =>
    if e.email = em then ⟨e.email, e.total_amount + amt, e.logins ++ ls⟩ :: es
    else e :: updateRise es em amt ls

def lineTokens (line : String) : List String := splitWsStr (trimStr line)

/-- One iteration of the main line loop of `parse_pasted_data`, over the
whitespace tokens of the line. -/
def parseLineParts (st : ParseState) (parts : List String) : ParseState :=
  if 2 ≤ parts.length then
    if parts.any hasAtSign = true ∧ 3 ≤ parts.length then
      match scanTokens parts with
      | none => st
      | some (aIdx, eIdx) =>
        match pyFloat? (stripMoney (parts.getD aIdx "")) with
        | none => st
        | some v =>
          let amount := pyValQ v
          let login_field := joinSep " " (parts.take aIdx)
          let email := parts.getD eIdx ""
          let login_ids :=
            if login_field.data.contains ',' then (splitCharStr ',' login_field).map trimStr
            else [trimStr login_field]
          { st with riseworks_data := updateRise st.riseworks_data email amount login_ids }
    else if parts.length = 2 then
      match pyFloat? (stripMoney (parts.getD 1 "")) with
      | none => st
      | some v =>
        { st with crypto_data :=
            st.crypto_data ++ [⟨trimStr (parts.getD 0 ""), pyValQ v, none, "ALT"⟩] }
    else st
  else st

def parseLine (st : ParseState) (line : String) : ParseState :=
  parseLineParts st (lineTokens line)

/-- Emission step for one `riseworks_data` entry: deduplicate logins, keep the
nonempty trimmed ones, and emit one row per login with the total divided
evenly.  `list(set(...))` is modelled in first-occurrence order; no property
proved here depends on that order. -/
def emitRiseworks (e : RiseEntry) : List PastedRow :=
  let unique_logins := dedupFirst e.logins
  let valid_logins := (unique_logins.map trimStr).filter (fun l => l ≠ "")
  if valid_logins.isEmpty then []
  else valid_logins.map
    (fun l => ⟨l, e.total_amount / (valid_logins.length : ℚ), some e.email, "Riseworks"⟩)

def parseLines (lines : List String) : Option (List PastedRow) :=
  let st := lines.foldl parseLine ⟨[], []⟩
  let final_data := st.riseworks_data.flatMap emitRiseworks ++ st.crypto_data
  if final_data.isEmpty then none else some final_data

def parse_pasted_data (pasted_text : String) : Option (List PastedRow) :=
  parseLines (splitCharStr '\n' (trimStr pasted_text))

/-! ### Specification-side description of the token scan (used to settle the
claim about which tokens are chosen) -/

/-- First index of a token that contains `@` and is not itself amount-like
(the code breaks only at such a token). -/
def firstEmailTokenIdx : List String → Option ℕ
  | [] => none
  | t :: ts =>
    if !isAmountToken t && hasAtSign t then some 0
    else (firstEmailTokenIdx ts).map (fun j => j + 1)

/-- Index of the last amount-like token of a list. -/
def lastAmountTokenIdx : List String → Option ℕ
  | [] => none
  | t :: ts =>
    match lastAmountTokenIdx ts with
    | some j => some (j + 1)
    | none => if isAmountToken t then some 0 else none

theorem scanGo_spec : ∀ (parts : List String) (i : ℕ) (amt : Option ℕ),
    scanGo i amt parts =
      match firstEmailTokenIdx parts with
      | none => none
      | some e =>
        match lastAmountTokenIdx (parts.take e) with
        | some j => some (i + j, i + e)
        | none => amt.map (fun a => (a, i + e))
  | [], i, amt => by simp [scanGo, firstEmailTokenIdx]
  | t :: ts, i, amt => by
    by_cases hA : isAmountToken t = true
    · have h1 : scanGo i amt (t :: ts) = scanGo (i + 1) (some i) ts := by
        rw [scanGo, if_pos hA]
      have h2 : firstEmailTokenIdx (t :: ts) = (firstEmailTokenIdx ts).map (fun j => j + 1) := by
        rw [firstEmailTokenIdx]; simp [hA]
      rw [h1, scanGo_spec ts (i + 1) (some i), h2]
      cases hfe : firstEmailTokenIdx ts with
      | none => simp
      | some e' =>
        simp only [Option.map_some']
        rw [List.take_succ_cons, lastAmountTokenIdx]
        cases hla : lastAmountTokenIdx (ts.take e') with
        | some j =>
          simp only [Option.some.injEq, Prod.mk.injEq]
          constructor <;> omega
        | none =>
          rw [if_pos hA]
          simp only [Option.map_some', Option.some.injEq, Prod.mk.injEq]
          constructor <;> omega
    · by_cases hE : hasAtSign t = true
      · have h1 : scanGo i amt (t :: ts) = amt.map (fun a => (a, i)) := by
          rw [scanGo, if_neg hA, if_pos hE]
        have h2 : firstEmailTokenIdx (t :: ts) = some 0 := by
          rw [firstEmailTokenIdx]; simp [hA, hE]
        rw [h1, h2]
        simp [lastAmountTokenIdx]
      · have h1 : scanGo i amt (t :: ts) = scanGo (i + 1) amt ts := by
          rw [scanGo, if_neg hA, if_neg hE]
        have h2 : firstEmailTokenIdx (t :: ts) = (firstEmailTokenIdx ts).map (fun j => j + 1) := by
          rw [firstEmailTokenIdx]; simp [hA, hE]
        rw [h1, scanGo_spec ts (i + 1) amt, h2]
        cases hfe : firstEmailTokenIdx ts with
        | none => simp
        | some e' =>
          simp only [Option.map_some']
          rw [List.take_succ_cons, lastAmountTokenIdx]
          cases hla : lastAmountTokenIdx (ts.take e') with
          | some j =>
            simp only [Option.some.injEq, Prod.mk.injEq]
            constructor <;> omega
          | none =>
            rw [if_neg hA]
            cases amt with
            | none => simp
            | some a =>
              simp only [Option.map_some', Option.some.injEq, Prod.mk.injEq]
              exact ⟨trivial, by omega⟩

/-- C5 counterexample: on `1.5 2.5 a@b.c` the scan picks token index 1
(`2.5`) as the amount although token 0 (`1.5`) already matches the
decimal-number pattern, so the amount token is not the FIRST qualifying
token; and on `$@x 1.5 a@b.c` the scan picks token index 2 as the email
although token 0 already contains `@`. -/
theorem c5_counterexample :
    scanTokens ["1.5", "2.5", "a@b.c"] = some (1, 2) ∧ isAmountToken "1.5" = true ∧
    scanTokens ["$@x", "1.5", "a@b.c"] = some (1, 2) ∧ hasAtSign "$@x" = true := by
  decide

/-- C5 (amended): the email token chosen is the FIRST token that contains `@`
and is not itself amount-like, and the amount token chosen is the LAST
amount-like token occurring before that email token; the line yields no
tokens when either is missing. -/
theorem c5_token_identification (parts : List String) :
    scanTokens parts =
      match firstEmailTokenIdx parts with
      | none => none
      | some e => (lastAmountTokenIdx (parts.take e)).map (fun a => (a, e)) := by
  rw [scanTokens, scanGo_spec]
  cases hfe : firstEmailTokenIdx parts with
  | none => rfl
  | some e =>
    cases hla : lastAmountTokenIdx (parts.take e) with
    | some j => simp [hla]
    | none => simp [hla]

theorem sumMapConstQ {α : Type} (l : List α) (c : ℚ) :
    (l.map (fun _ => c)).sum = (l.length : ℚ) * c := by
  induction l with
  | nil => simp
  | cons x xs ih =>
    simp only [List.map_cons, List.sum_cons, ih, List.length_cons]
    push_cast
    ring

/-- C6: email-split amount conservation for the Riseworks emission step:
with k distinct valid identities, exactly k rows are emitted, each with
amount (a1+...+an)/k, and the emitted amounts sum back to a1+...+an
(exactly, hence within any tolerance). -/
theorem c6_email_split_conservation (email : String) (amounts : List ℚ) (logins : List String)
    (k : ℕ)
    (hk : (((dedupFirst logins).map trimStr).filter (fun l => l ≠ "")).length = k)
    (hpos : 0 < k) :
    (emitRiseworks ⟨email, amounts.sum, logins⟩).length = k ∧
    (∀ rec ∈ emitRiseworks ⟨email, amounts.sum, logins⟩, rec.amount = amounts.sum / (k : ℚ)) ∧
    ((emitRiseworks ⟨email, amounts.sum, logins⟩).map PastedRow.amount).sum = amounts.sum := by
  have hkq : ((k : ℚ)) ≠ 0 := by
    exact_mod_cast Nat.pos_iff_ne_zero.mp hpos
  set valid := (((dedupFirst logins).map trimStr).filter (fun l => l ≠ "")) with hvalid
  have hne : valid.isEmpty = false := by
    rcases hv : valid with _ | ⟨v, vs⟩
    · rw [hv] at hk; simp at hk; omega
    · rfl
  have hemit : emitRiseworks ⟨email, amounts.sum, logins⟩ =
      if valid.isEmpty = true then []
      else valid.map (fun l =>
        (⟨l, amounts.sum / (valid.length : ℚ), some email, "Riseworks"⟩ : PastedRow)) := rfl
  rw [hemit, hne]
  simp only [Bool.false_eq_true, if_false]
  refine ⟨by simpa using hk, ?_, ?_⟩
  · intro rec hrec
    rcases List.mem_map.mp hrec with ⟨l, _, hl⟩
    rw [← hl, hk]
  · rw [List.map_map]
    have hcomp :
        (PastedRow.amount ∘ fun l =>
          (⟨l, amounts.sum / (valid.length : ℚ), some email, "Riseworks"⟩ : PastedRow)) =
          (fun _ => amounts.sum / (valid.length : ℚ)) := rfl
    rw [hcomp, sumMapConstQ, hk]
    exact mul_div_cancel₀ _ hkq

/-- C6 witness: one email with line amounts 10 and 20 over the identity list
[a, b, a] (two distinct valid identities) gives two rows summing to 30. -/
theorem c6_witness :
    ((((dedupFirst ["a", "b", "a"]).map trimStr).filter (fun l => l ≠ "")).length = 2 ∧
      0 < 2) ∧
    (emitRiseworks ⟨"x@y", ([10, 20] : List ℚ).sum, ["a", "b", "a"]⟩).length = 2 ∧
    ((emitRiseworks ⟨"x@y", ([10, 20] : List ℚ).sum, ["a", "b", "a"]⟩).map
        PastedRow.amount).sum = ([10, 20] : List ℚ).sum := by
  refine ⟨⟨by decide, by decide⟩, ?_, ?_⟩
  · exact (c6_email_split_conservation "x@y" [10, 20] ["a", "b", "a"] 2 (by decide) (by decide)).1
  · exact (c6_email_split_conservation "x@y" [10, 20] ["a", "b", "a"] 2 (by decide) (by decide)).2.2

/-- Decides whether a line is one whose amount token fails numeric parsing
(after stripping the currency symbol and thousands separators): exactly the
lines on which `float(...)` raises `ValueError` inside the per-line handler
of `parse_pasted_data`. -/
def malformedParts (parts : List String) : Bool :=
  if parts.any hasAtSign = true ∧ 3 ≤ parts.length then
    match scanTokens parts with
    | some (aIdx, _) => (pyFloat? (stripMoney (parts.getD aIdx ""))).isNone
    | none => false
  else if parts.length = 2 then (pyFloat? (stripMoney (parts.getD 1 ""))).isNone
  else false

def malformedAmountLine (line : String) : Bool := malformedParts (lineTokens line)

theorem parseLineParts_malformed (st : ParseState) (parts : List String)
    (h : malformedParts parts = true) : parseLineParts st parts = st := by
  unfold malformedParts at h
  unfold parseLineParts
  by_cases h1 : parts.any hasAtSign = true ∧ 3 ≤ parts.length
  · rw [if_pos h1] at h
    have h2 : 2 ≤ parts.length := le_trans (by omega) h1.2
    rw [if_pos h2, if_pos h1]
    cases hscan : scanTokens parts with
    | none => rfl
    | some p =>
      rcases p with ⟨aIdx, eIdx⟩
      rw [hscan] at h
      have hfl : pyFloat? (stripMoney (parts.getD aIdx "")) = none :=
        Option.isNone_iff_eq_none.mp h
      simp only [hfl]
  · rw [if_neg h1] at h
    by_cases h2 : parts.length = 2
    · rw [if_pos h2] at h
      have h3 : 2 ≤ parts.length := by omega
      rw [if_pos h3, if_neg h1, if_pos h2]
      have hfl : pyFloat? (stripMoney (parts.getD 1 "")) = none :=
        Option.isNone_iff_eq_none.mp h
      simp only [hfl]
    · rw [if_neg h2] at h
      exact absurd h (by simp)

theorem parseLine_malformed (st : ParseState) (line : String)
    (h : malformedAmountLine line = true) : parseLine st line = st :=
  parseLineParts_malformed st (lineTokens line) h

/-- C8: a line whose amount token fails numeric parsing is skipped silently,
contributing no record and leaving the rest of the batch unchanged (the
parser is a total function, so no exception escapes). -/
theorem c8_malformed_line_skipped (line : String) (h : malformedAmountLine line = true)
    (pre suf : List String) :
    parseLines (pre ++ line :: suf) = parseLines (pre ++ suf) := by
  have hstep : parseLine (pre.foldl parseLine ⟨[], []⟩) line = pre.foldl parseLine ⟨[], []⟩ :=
    parseLine_malformed _ line h
  unfold parseLines
  rw [List.foldl_append, List.foldl_append, List.foldl_cons, hstep]

/-- C8 witness: a block with one well-formed ALT line and one line with a
non-numeric amount token parses to exactly one record; forms `float(...)`
accepts (exponent notation, underscore separators) are NOT treated as
malformed and do produce records. -/
theorem c8_witness :
    malformedAmountLine "9 1x" = true ∧
    parseLines ["8 1.5", "9 1x"] = parseLines ["8 1.5"] ∧
    (parseLines ["8 1.5"]).map List.length = some 1 ∧
    malformedAmountLine "9 1e5" = false ∧
    parseLines ["9 1e5"] = some [⟨"9", 100000, none, "ALT"⟩] ∧
    malformedAmountLine "9 1_000" = false ∧
    parseLines ["9 1_000"] = some [⟨"9", 1000, none, "ALT"⟩] := by
  refine ⟨by decide, ?_, by decide, by decide, by decide, by decide, by decide⟩
  simpa using c8_malformed_line_skipped "9 1x" (by decide) ["8 1.5"] []

/-! ### IEEE binary64 rounding (Python floats).  The program compares amounts
with `abs(excel - pasted) <= 0.01` in double precision; the subtraction is
rounded to the nearest double (ties to even) and the literal `0.01` denotes
the double nearest 1/100.  Exponents of every value this program handles are
far inside the binary64 range, so overflow and subnormals are not modelled. -/

/-- Bit length of a natural number (fuel-driven binary recursion; the fuel
`n` always suffices since `bits n ≤ n` for `n ≥ 1`). -/
def bitLenAux : ℕ → ℕ → ℕ
  | 0, _ => 0
  | fuel + 1, n => if n ≤ 1 then n else bitLenAux fuel (n / 2) + 1

def natBits (n : ℕ) : ℕ := bitLenAux n n

/-- `n / d ≥ 2 ^ m`, by cross-multiplication. -/
def ratGePow2 (n d : ℕ) (m : ℤ) : Bool :=
  if 0 ≤ m then d * 2 ^ m.toNat ≤ n else d ≤ n * 2 ^ (-m).toNat

/-- `⌊log₂ (n / d)⌋` for positive `n`, `d`: the bit-length difference is off
by at most one, fixed up with one comparison. -/
def floorLog2 (n d : ℕ) : ℤ :=
  let k0 : ℤ := (natBits n : ℤ) - (natBits d : ℤ)
  if ratGePow2 n d k0 then k0 else k0 - 1

/-- Round the positive rational `n / d` to 53 significant bits, nearest,
ties to even: scale into `[2^52, 2^53)`, round the scaled value to an
integer, and scale back. -/
def roundPosB64 (n d : ℕ) : ℚ :=
  let e : ℤ := floorLog2 n d - 52
  let N : ℕ := if 0 ≤ e then n else n * 2 ^ (-e).toNat
  let D : ℕ := if 0 ≤ e then d * 2 ^ e.toNat else d
  let m : ℕ := N / D
  let r : ℕ := N % D
  let m2 : ℕ :=
    if 2 * r < D then m
    else if D < 2 * r then m + 1
    else if m % 2 = 0 then m else m + 1
  if 0 ≤ e then mkRat (m2 * 2 ^ e.toNat : ℕ) 1 else mkRat (m2 : ℕ) (2 ^ (-e).toNat)

/-- Correctly-rounded conversion of an exact rational to the nearest IEEE
binary64 value (rounding is symmetric in the sign). -/
def roundB64 (q : ℚ) : ℚ :=
  if q = 0 then 0
  else if 0 < q then roundPosB64 q.num.toNat q.den
  else -roundPosB64 (-q.num).toNat q.den

/-- IEEE double subtraction: the exact difference rounded to the nearest
double. -/
def floatSub (x y : ℚ) : ℚ := roundB64 (x - y)

/-- The Python literal `0.01`: the binary64 double nearest 1/100 (which lies
ABOVE 1/100 by about 2.08e-19). -/
def pyPointZeroOne : ℚ := roundB64 (mkRat 1 100)

/-! ### Matching engine: `ReconciliationProcessor.reconcile_data` -/

/-- One row of the uploaded (authoritative) ledger.  `Customer Email`,
`Plan` and `Payment Method` can be missing (NaN) in a pandas frame; the
remaining fields are only carried through, never branched on. -/
structure UploadedRow where
  login : String
  customer_email : Option String
  plan : Option String
  amount : ℚ
  disbursement_amount : ℚ
  payment_method : Option String
  proof : String
  status : String
  requested_time : String
  approved_time : String
  disbursed_time : String
  deriving DecidableEq, Repr, Inhabited

/-- A record appended to `all_matched` or `all_amount_diff`:
`amount_difference` is set only on the discrepancy branch. -/
structure MatchRecord where
  payment_method : String
  customer_email : Option String
  login : String
  excel_disbursement_amount : ℚ
  pasted_amount : ℚ
  amount_difference : Option ℚ
  proof : String
  status : String
  requested_time : String
  approved_time : String
  disbursed_time : String
  deriving DecidableEq, Repr, Inhabited

/-- A record appended to `all_upload_only` (the dict built at lines 311-321). -/
structure UploadOnlyRecord where
  login : String
  customer_email : Option String
  amount : ℚ
  disbursement_amount : ℚ
  proof : String
  status : String
  requested_time : String
  approved_time : String
  disbursed_time : String
  deriving DecidableEq, Repr, Inhabited

/-- A record appended to `all_paste_only`. -/
structure PasteOnlyRecord where
  payment_method : String
  login : String
  customer_email : Option String
  amount : ℚ
  deriving DecidableEq, Repr, Inhabited

structure SummaryCounts where
  matched : ℕ
  upload_only : ℕ
  paste_only : ℕ
  amount_differences : ℕ
  total_upload_records : ℕ
  total_pasted_records : ℕ
  section_type : String
  deriving DecidableEq, Repr, Inhabited

/-- The `results` dict returned by `reconcile_data`. -/
structure RecResults where
  matched : List MatchRecord
  amount_differences : List MatchRecord
  upload_only : List UploadOnlyRecord
  paste_only : List PasteOnlyRecord
  summary : SummaryCounts
  deriving DecidableEq, Repr, Inhabited

/-- `uploaded['Payment Method'].str.lower().str.contains('riseworks', na=False)` -/
def methodRiseworksLabel (pm : Option String) : Bool :=
  match pm with
  | none => false
  | some t => strContains (lowerStr t) "riseworks"

/-- `uploaded['Payment Method'].str.upper().str.contains('USDC|USDT', na=False)` -/
def methodAltLabel (pm : Option String) : Bool :=
  match pm with
  | none => false
  | some t => strContains (upperStr t) "USDC" || strContains (upperStr t) "USDT"

/-- `Plan.str.lower().str.contains('futures', na=False)` -/
def planContainsFutures (plan : Option String) : Bool :=
  match plan with
  | none => false
  | some p => strContains (lowerStr p) "futures"

/-- Section filter: Forex keeps rows whose plan does NOT contain `futures`,
Futures keeps the rows that do. -/
def sectionMask (section_type : String) (row : UploadedRow) : Bool :=
  if lowerStr section_type = "forex" then !planContainsFutures row.plan
  else planContainsFutures row.plan

/-- The section-and-payment-method filtered authoritative set used by the
joins: the section subset restricted to the method labels whose signal is
present in the pasted data (an absent signal contributes nothing, so with no
signal at all the result is empty). -/
def filteredUploaded (uploaded : List UploadedRow) (pasted : List PastedRow)
    (section_type : String) : List UploadedRow :=
  let sectionRows := uploaded.filter (sectionMask section_type)
  let rwPart :=
    if pasted.any (fun q => q.payment_method == "Riseworks") then
      sectionRows.filter (fun r => methodRiseworksLabel r.payment_method)
    else []
  let altPart :=
    if pasted.any (fun q => q.payment_method == "ALT") then
      sectionRows.filter (fun r => methodAltLabel r.payment_method)
    else []
  rwPart ++ altPart

/-- Group keys of `uploaded_df.groupby('Customer Email')`: pandas drops null
keys; keys are modelled in first-occurrence order (groupby sorts them, but no
property proved here depends on key order). -/
def emailGroupKeys (filtered : List UploadedRow) : List String :=
  dedupFirst (filtered.filterMap (fun r => r.customer_email))

def emailGroupDisbSum (filtered : List UploadedRow) (key : String) : ℚ :=
  ((filtered.filter (fun r => r.customer_email == some key)).map
    (fun r => r.disbursement_amount)).sum

def emailGroupLogins (filtered : List UploadedRow) (key : String) : List String :=
  (filtered.filter (fun r => r.customer_email == some key)).map (fun r => r.login)

def pastedEmailKeys (rw : List PastedRow) : List String :=
  dedupFirst (rw.filterMap (fun q => q.customer_email))

def pastedEmailAmountSum (rw : List PastedRow) (key : String) : ℚ :=
  ((rw.filter (fun q => q.customer_email == some key)).map (fun q => q.amount)).sum

/-- The record built for one matched (normalised) email: `upload_data` and
`paste_data` are the first groups whose normalised key equals the email
(`iloc[0]`); both lookups provably succeed because the email comes from the
intersection of the two normalised key sets, so the fallthrough `none`
branches are unreachable. -/
def mkRiseworksRecord (filtered : List UploadedRow) (rw : List PastedRow)
    (e : String) : Option MatchRecord :=
  match (emailGroupKeys filtered).find? (fun k => normEmail k == e),
        (pastedEmailKeys rw).find? (fun k => normEmail k == e) with
  | some uk, some pk =>
    match filtered.find? (fun r => r.customer_email == some uk) with
    | some r0 => some
      { payment_method := "Riseworks"
        customer_email := some uk
        login := joinSep ", " (emailGroupLogins filtered uk)
        excel_disbursement_amount := emailGroupDisbSum filtered uk
        pasted_amount := pastedEmailAmountSum rw pk
        amount_difference := none
        proof := r0.proof
        status := r0.status
        requested_time := r0.requested_time
        approved_time := r0.approved_time
        disbursed_time := r0.disbursed_time }
    | none => none
  | _, _ => none

/-- `matched_emails = uploaded_emails ∩ riseworks_emails` over the normalised
key sets (iterated in upload-side order; the source iterates a Python set). -/
def riseworksMatchedEmails (filtered : List UploadedRow) (rw : List PastedRow) : List String :=
  (dedupFirst ((emailGroupKeys filtered).map normEmail)).filter
    (fun e => e ∈ dedupFirst ((pastedEmailKeys rw).map normEmail))

def riseworksRecords (filtered : List UploadedRow) (rw : List PastedRow) : List MatchRecord :=
  (riseworksMatchedEmails filtered rw).filterMap (mkRiseworksRecord filtered rw)

def loginGroupKeys (filtered : List UploadedRow) : List String :=
  dedupFirst (filtered.map (fun r => r.login))

def loginGroupDisbSum (filtered : List UploadedRow) (key : String) : ℚ :=
  ((filtered.filter (fun r => r.login == key)).map (fun r => r.disbursement_amount)).sum

def pastedLoginKeys (alt : List PastedRow) : List String :=
  dedupFirst (alt.map (fun q => q.login))

def pastedLoginAmountSum (alt : List PastedRow) (key : String) : ℚ :=
  ((alt.filter (fun q => q.login == key)).map (fun q => q.amount)).sum

/-- The record built for one matched login key; `Customer Email` takes the
group's first non-null email (pandas `agg('first')` skips nulls). -/
def mkAltRecord (filtered : List UploadedRow) (alt : List PastedRow)
    (k : String) : Option MatchRecord :=
  match filtered.find? (fun r => r.login == k) with
  | some r0 => some
    { payment_method := "ALT"
      customer_email := ((filtered.filter (fun r => r.login == k)).filterMap
        (fun r => r.customer_email)).head?
      login := k
      excel_disbursement_amount := loginGroupDisbSum filtered k
      pasted_amount := pastedLoginAmountSum alt k
      amount_difference := none
      proof := r0.proof
      status := r0.status
      requested_time := r0.requested_time
      approved_time := r0.approved_time
      disbursed_time := r0.disbursed_time }
  | none => none

def altMatchedLogins (filtered : List UploadedRow) (alt : List PastedRow) : List String :=
  (loginGroupKeys filtered).filter (fun k => k ∈ pastedLoginKeys alt)

def altRecords (filtered : List UploadedRow) (alt : List PastedRow) : List MatchRecord :=
  (altMatchedLogins filtered alt).filterMap (mkAltRecord filtered alt)

/-- `amount_diff = abs(excel_amount - pasted_amount); amount_diff <= 0.01`,
computed on IEEE doubles: the subtraction rounds to the nearest double,
`abs` and the comparison are exact, and `0.01` is the double nearest
1/100. -/
def withinTolerance (rec : MatchRecord) : Bool :=
  |floatSub rec.excel_disbursement_amount rec.pasted_amount| ≤ pyPointZeroOne

/-- On the discrepancy branch the signed float difference `excel - pasted`
is attached to the record. -/
def mkDifference (rec : MatchRecord) : Option MatchRecord :=
  if withinTolerance rec then none
  else some { rec with
    amount_difference :=
      some (floatSub rec.excel_disbursement_amount rec.pasted_amount) }

/-- `all_matched_upload_emails` (= `all_matched_paste_emails`): normalised
emails of the Riseworks records among matched and discrepant. -/
def matchedEmailKeySet (recs : List MatchRecord) : List String :=
  recs.filterMap (fun rec =>
    if rec.payment_method = "Riseworks" then rec.customer_email.map normEmail else none)

/-- `all_matched_upload_logins` (= `all_matched_paste_logins`). -/
def matchedLoginKeySet (recs : List MatchRecord) : List String :=
  recs.filterMap (fun rec =>
    if rec.payment_method = "Riseworks" then none else some rec.login)

def projUploadOnly (r : UploadedRow) : UploadOnlyRecord :=
  ⟨r.login, r.customer_email, r.amount, r.disbursement_amount, r.proof, r.status,
    r.requested_time, r.approved_time, r.disbursed_time⟩

/-- The upload-only loop.  The source evaluates
`row['Customer Email'].lower().strip()` on EVERY filtered row before testing
membership, so a missing email raises (modelled by `none`) even when the row
would have been rescued by its login. -/
def uploadOnlyLoop (eKeys lKeys : List String) : List UploadedRow → Option (List UploadOnlyRecord)
  | [] => some []
  | r :: rs =>
    match r.customer_email with
    | none => none
    | some e =>
      match uploadOnlyLoop eKeys lKeys rs with
      | none => none
      | some rest =>
        if normEmail e ∈ eKeys ∨ r.login ∈ lKeys then some rest
        else some (projUploadOnly r :: rest)

def projPasteOnly (q : PastedRow) : PasteOnlyRecord :=
  if q.payment_method = "Riseworks" then ⟨"Riseworks", q.login, q.customer_email, q.amount⟩
  else ⟨"ALT", q.login, none, q.amount⟩

/-- The paste-only loop; every non-Riseworks row goes through the ALT branch,
and a Riseworks row with a missing email raises (`.lower()` on NaN). -/
def pasteOnlyLoop (eKeys lKeys : List String) : List PastedRow → Option (List PasteOnlyRecord)
  | [] => some []
  | q :: qs =>
    if q.payment_method = "Riseworks" then
      match q.customer_email with
      | none => none
      | some e =>
        match pasteOnlyLoop eKeys lKeys qs with
        | none => none
        | some rest =>
          if normEmail e ∈ eKeys then some rest
          else some (⟨"Riseworks", q.login, some e, q.amount⟩ :: rest)
    else
      match pasteOnlyLoop eKeys lKeys qs with
      | none => none
      | some rest =>
        if q.login ∈ lKeys then some rest
        else some (⟨"ALT", q.login, none, q.amount⟩ :: rest)

/-- `riseworks_pasted = pasted_df[pasted_df['Payment_Method'] == 'Riseworks']` -/
def riseworksPasted (pasted : List PastedRow) : List PastedRow :=
  pasted.filter (fun q => q.payment_method == "Riseworks")

/-- `alt_pasted = pasted_df[pasted_df['Payment_Method'] == 'ALT']` -/
def altPasted (pasted : List PastedRow) : List PastedRow :=
  pasted.filter (fun q => q.payment_method == "ALT")

/-- All base match records of a run: the email join runs only when Riseworks
rows were pasted, the login join only when ALT rows were pasted, and BOTH
joins group the whole filtered uploaded set. -/
def reconcileBaseRecords (uploaded : List UploadedRow) (pasted : List PastedRow)
    (section_type : String) : List MatchRecord :=
  let filtered := filteredUploaded uploaded pasted section_type
  (if (riseworksPasted pasted).isEmpty then []
   else riseworksRecords filtered (riseworksPasted pasted)) ++
  (if (altPasted pasted).isEmpty then []
   else altRecords filtered (altPasted pasted))

def reconcileMatched (uploaded : List UploadedRow) (pasted : List PastedRow)
    (section_type : String) : List MatchRecord :=
  (reconcileBaseRecords uploaded pasted section_type).filter withinTolerance

def reconcileDiffs (uploaded : List UploadedRow) (pasted : List PastedRow)
    (section_type : String) : List MatchRecord :=
  (reconcileBaseRecords uploaded pasted section_type).filterMap mkDifference

def reconcileEKeys (uploaded : List UploadedRow) (pasted : List PastedRow)
    (section_type : String) : List String :=
  matchedEmailKeySet
    (reconcileMatched uploaded pasted section_type ++ reconcileDiffs uploaded pasted section_type)

def reconcileLKeys (uploaded : List UploadedRow) (pasted : List PastedRow)
    (section_type : String) : List String :=
  matchedLoginKeySet
    (reconcileMatched uploaded pasted section_type ++ reconcileDiffs uploaded pasted section_type)

/-- The reconciliation engine.  Mirrors `reconcile_data`: split the pasted
data by method, filter the uploaded data by section and by present method
signals, run the email-keyed join (over the WHOLE filtered set) when
Riseworks data is present and the login-keyed join (likewise) when ALT data
is present, classify each emitted pair by the 0.01 tolerance, then derive
upload-only and paste-only rows by key membership. -/
def reconcile_data (uploaded : List UploadedRow) (pasted : List PastedRow)
    (section_type : String) : Option RecResults :=
  let filtered := filteredUploaded uploaded pasted section_type
  let all_matched := reconcileMatched uploaded pasted section_type
  let all_amount_diff := reconcileDiffs uploaded pasted section_type
  let eKeys := reconcileEKeys uploaded pasted section_type
  let lKeys := reconcileLKeys uploaded pasted section_type
  (uploadOnlyLoop eKeys lKeys filtered).bind (fun upload_only =>
    (pasteOnlyLoop eKeys lKeys pasted).map (fun paste_only =>
      { matched := all_matched
        amount_differences := all_amount_diff
        upload_only := upload_only
        paste_only := paste_only
        summary :=
          ⟨all_matched.length, upload_only.length, paste_only.length,
            all_amount_diff.length, filtered.length, pasted.length, section_type⟩ }))

/-- The Boolean the upload-only loop branches on: email key in the matched
email set, or login in the matched login set. -/
def uploadRowMatched (eKeys lKeys : List String) (row : UploadedRow) : Bool :=
  (match row.customer_email with
   | some e => decide (normEmail e ∈ eKeys)
   | none => false) || decide (row.login ∈ lKeys)

/-- The Boolean the paste-only loop branches on. -/
def pasteRowMatched (eKeys lKeys : List String) (q : PastedRow) : Bool :=
  if q.payment_method = "Riseworks" then
    match q.customer_email with
    | some e => decide (normEmail e ∈ eKeys)
    | none => false
  else decide (q.login ∈ lKeys)

theorem uploadOnlyLoop_eq (eKeys lKeys : List String) :
    ∀ (l : List UploadedRow) (out : List UploadOnlyRecord),
    uploadOnlyLoop eKeys lKeys l = some out →
    out = (l.filter (fun x => !uploadRowMatched eKeys lKeys x)).map projUploadOnly
  | [], out, h => by
    simp only [uploadOnlyLoop, Option.some.injEq] at h
    simp [← h]
  | r :: rs, out, h => by
    cases hem : r.customer_email with
    | none => simp [uploadOnlyLoop, hem] at h
    | some e =>
      cases hrec : uploadOnlyLoop eKeys lKeys rs with
      | none => simp [uploadOnlyLoop, hem, hrec] at h
      | some rest =>
        simp only [uploadOnlyLoop, hem, hrec] at h
        have ih := uploadOnlyLoop_eq eKeys lKeys rs rest hrec
        by_cases hc : normEmail e ∈ eKeys ∨ r.login ∈ lKeys
        · rw [if_pos hc] at h
          injection h with h
          have hm : uploadRowMatched eKeys lKeys r = true := by
            unfold uploadRowMatched
            rw [hem]
            simpa using hc
          rw [List.filter_cons, hm]
          simp only [Bool.not_true, Bool.false_eq_true, if_false]
          rw [← h, ih]
        · rw [if_neg hc] at h
          injection h with h
          have hm : uploadRowMatched eKeys lKeys r = false := by
            unfold uploadRowMatched
            rw [hem]
            simpa using hc
          rw [List.filter_cons, hm]
          simp only [Bool.not_false, if_true, List.map_cons]
          rw [← h, ih]

theorem uploadOnlyLoop_isSome (eKeys lKeys : List String) :
    ∀ (l : List UploadedRow), (∀ x ∈ l, x.customer_email ≠ none) →
    (uploadOnlyLoop eKeys lKeys l).isSome = true
  | [], _ => by simp [uploadOnlyLoop]
  | r :: rs, h => by
    cases hem : r.customer_email with
    | none => exact absurd hem (h r (by simp))
    | some e =>
      have hrs := uploadOnlyLoop_isSome eKeys lKeys rs (fun x hx => h x (by simp [hx]))
      cases hrec : uploadOnlyLoop eKeys lKeys rs with
      | none => rw [hrec] at hrs; simp at hrs
      | some rest =>
        by_cases hc : normEmail e ∈ eKeys ∨ r.login ∈ lKeys
        · simp [uploadOnlyLoop, hem, hrec, hc]
        · simp [uploadOnlyLoop, hem, hrec, hc]

theorem pasteOnlyLoop_eq (eKeys lKeys : List String) :
    ∀ (p : List PastedRow) (out : List PasteOnlyRecord),
    pasteOnlyLoop eKeys lKeys p = some out →
    out = (p.filter (fun q => !pasteRowMatched eKeys lKeys q)).map projPasteOnly
  | [], out, h => by
    simp only [pasteOnlyLoop, Option.some.injEq] at h
    simp [← h]
  | q :: qs, out, h => by
    by_cases hmeth : q.payment_method = "Riseworks"
    · cases hem : q.customer_email with
      | none => simp [pasteOnlyLoop, hmeth, hem] at h
      | some e =>
        cases hrec : pasteOnlyLoop eKeys lKeys qs with
        | none => simp [pasteOnlyLoop, hmeth, hem, hrec] at h
        | some rest =>
          simp only [pasteOnlyLoop, hmeth, hem, hrec, if_true, if_pos] at h
          have ih := pasteOnlyLoop_eq eKeys lKeys qs rest hrec
          by_cases hc : normEmail e ∈ eKeys
          · rw [if_pos hc] at h
            injection h with h
            have hm : pasteRowMatched eKeys lKeys q = true := by
              unfold pasteRowMatched
              rw [if_pos hmeth, hem]
              simpa using hc
            rw [List.filter_cons, hm]
            simp only [Bool.not_true, Bool.false_eq_true, if_false]
            rw [← h, ih]
          · rw [if_neg hc] at h
            injection h with h
            have hm : pasteRowMatched eKeys lKeys q = false := by
              unfold pasteRowMatched
              rw [if_pos hmeth, hem]
              simpa using hc
            rw [List.filter_cons, hm]
            simp only [Bool.not_false, if_true, List.map_cons]
            have hproj : projPasteOnly q = ⟨"Riseworks", q.login, some e, q.amount⟩ := by
              unfold projPasteOnly
              rw [if_pos hmeth, hem]
            rw [← h, ih, hproj]
    · cases hrec : pasteOnlyLoop eKeys lKeys qs with
      | none => simp [pasteOnlyLoop, hmeth, hrec] at h
      | some rest =>
        simp only [pasteOnlyLoop, hmeth, hrec, if_neg, if_false] at h
        have ih := pasteOnlyLoop_eq eKeys lKeys qs rest hrec
        by_cases hc : q.login ∈ lKeys
        · rw [if_pos hc] at h
          injection h with h
          have hm : pasteRowMatched eKeys lKeys q = true := by
            unfold pasteRowMatched
            rw [if_neg hmeth]
            simpa using hc
          rw [List.filter_cons, hm]
          simp only [Bool.not_true, Bool.false_eq_true, if_false]
          rw [← h, ih]
        · rw [if_neg hc] at h
          injection h with h
          have hm : pasteRowMatched eKeys lKeys q = false := by
            unfold pasteRowMatched
            rw [if_neg hmeth]
            simpa using hc
          rw [List.filter_cons, hm]
          simp only [Bool.not_false, if_true, List.map_cons]
          have hproj : projPasteOnly q = ⟨"ALT", q.login, none, q.amount⟩ := by
            unfold projPasteOnly
            rw [if_neg hmeth]
          rw [← h, ih, hproj]

theorem pasteOnlyLoop_isSome (eKeys lKeys : List String) :
    ∀ (p : List PastedRow),
    (∀ q ∈ p, q.payment_method = "Riseworks" → q.customer_email ≠ none) →
    (pasteOnlyLoop eKeys lKeys p).isSome = true
  | [], _ => by simp [pasteOnlyLoop]
  | q :: qs, h => by
    have hqs := pasteOnlyLoop_isSome eKeys lKeys qs (fun x hx => h x (by simp [hx]))
    by_cases hmeth : q.payment_method = "Riseworks"
    · cases hem : q.customer_email with
      | none => exact absurd hem (h q (by simp) hmeth)
      | some e =>
        cases hrec : pasteOnlyLoop eKeys lKeys qs with
        | none => rw [hrec] at hqs; simp at hqs
        | some rest =>
          by_cases hc : normEmail e ∈ eKeys
          · simp [pasteOnlyLoop, hmeth, hem, hrec, hc]
          · simp [pasteOnlyLoop, hmeth, hem, hrec, hc]
    · cases hrec : pasteOnlyLoop eKeys lKeys qs with
      | none => rw [hrec] at hqs; simp at hqs
      | some rest =>
        by_cases hc : q.login ∈ lKeys
        · simp [pasteOnlyLoop, hmeth, hrec, hc]
        · simp [pasteOnlyLoop, hmeth, hrec, hc]

theorem mem_ite_nil {α : Type} {c : Prop} [Decidable c] {l : List α} {x : α}
    (h : x ∈ (if c then [] else l)) : x ∈ l := by
  split at h
  · simp at h
  · exact h

theorem riseworksRecords_fields {filtered : List UploadedRow} {rw : List PastedRow}
    {rec : MatchRecord} (h : rec ∈ riseworksRecords filtered rw) :
    rec.payment_method = "Riseworks" ∧ rec.amount_difference = none := by
  rcases List.mem_filterMap.mp h with ⟨e, _, hmk⟩
  unfold mkRiseworksRecord at hmk
  split at hmk
  · split at hmk
    · injection hmk with h2
      rw [← h2]
      exact ⟨rfl, rfl⟩
    · exact absurd hmk (by simp)
  · exact absurd hmk (by simp)

theorem altRecords_fields {filtered : List UploadedRow} {alt : List PastedRow}
    {rec : MatchRecord} (h : rec ∈ altRecords filtered alt) :
    rec.payment_method = "ALT" ∧ rec.amount_difference = none := by
  rcases List.mem_filterMap.mp h with ⟨k, _, hmk⟩
  unfold mkAltRecord at hmk
  split at hmk
  · injection hmk with h2
    rw [← h2]
    exact ⟨rfl, rfl⟩
  · exact absurd hmk (by simp)

/-- C2 (amended): classification happens in IEEE binary64 arithmetic, not
exact decimal arithmetic: every record emitted into `matched` satisfies
|fl(excel - pasted)| <= fl(0.01) (and carries no difference), and every
record emitted into `amount_differences` violates that float comparison and
carries exactly the signed float difference fl(excel - pasted).  At the
boundary the float rule disagrees with the exact rule |X - Y| <= 0.01: for
X=100.00, Y=100.01 the program computes abs(100.0 - 100.01) ≈ 1.00000000000005e-2
> 0.01 and classifies the pair DISCREPANT (see the counterexample). -/
theorem c2_match_discrepancy_boundary (uploaded : List UploadedRow) (pasted : List PastedRow)
    (section_type : String) (r : RecResults)
    (h : reconcile_data uploaded pasted section_type = some r) :
    (∀ rec ∈ r.matched,
        |floatSub rec.excel_disbursement_amount rec.pasted_amount| ≤ pyPointZeroOne ∧
          rec.amount_difference = none) ∧
    (∀ rec ∈ r.amount_differences,
        ¬(|floatSub rec.excel_disbursement_amount rec.pasted_amount| ≤ pyPointZeroOne) ∧
          rec.amount_difference =
            some (floatSub rec.excel_disbursement_amount rec.pasted_amount)) := by
  simp only [reconcile_data] at h
  rcases Option.bind_eq_some.mp h with ⟨uo, huo, hmap⟩
  rcases Option.map_eq_some'.mp hmap with ⟨po, hpo, hr⟩
  subst hr
  constructor
  · intro rec hrec
    constructor
    · have := (List.mem_filter.mp hrec).2
      simpa [withinTolerance] using this
    · have hbase := (List.mem_filter.mp hrec).1
      rcases List.mem_append.mp hbase with hb | hb
      · exact (riseworksRecords_fields (mem_ite_nil hb)).2
      · exact (altRecords_fields (mem_ite_nil hb)).2
  · intro rec hrec
    rcases List.mem_filterMap.mp hrec with ⟨base, _, hmk⟩
    unfold mkDifference at hmk
    split at hmk
    · exact absurd hmk (by simp)
    · rename_i htol
      injection hmk with h2
      rw [← h2]
      refine ⟨?_, rfl⟩
      simpa [withinTolerance] using htol

theorem assemble_isSome (eKeys lKeys : List String) (filtered : List UploadedRow)
    (pasted : List PastedRow) (mk : List UploadOnlyRecord → List PasteOnlyRecord → RecResults)
    (h1 : ∀ x ∈ filtered, x.customer_email ≠ none)
    (h2 : ∀ q ∈ pasted, q.payment_method = "Riseworks" → q.customer_email ≠ none) :
    ((uploadOnlyLoop eKeys lKeys filtered).bind (fun uo =>
      (pasteOnlyLoop eKeys lKeys pasted).map (fun po => mk uo po))).isSome = true := by
  obtain ⟨uo, huo⟩ := Option.isSome_iff_exists.mp (uploadOnlyLoop_isSome eKeys lKeys filtered h1)
  obtain ⟨po, hpo⟩ := Option.isSome_iff_exists.mp (pasteOnlyLoop_isSome eKeys lKeys pasted h2)
  rw [huo, hpo]
  rfl

/-- C9 (amended): the matching engine completes (grouping, summing, matching
and classifying all records) whenever every FILTERED authoritative record and
every Riseworks reported record carries a Customer Email; with a missing
email on a filtered row the run raises instead (see the counterexample). -/
theorem c9_completes_when_emails_present (uploaded : List UploadedRow)
    (pasted : List PastedRow) (section_type : String)
    (h1 : ∀ row ∈ filteredUploaded uploaded pasted section_type, row.customer_email ≠ none)
    (h2 : ∀ q ∈ pasted, q.payment_method = "Riseworks" → q.customer_email ≠ none) :
    ∃ r, reconcile_data uploaded pasted section_type = some r := by
  apply Option.isSome_iff_exists.mp
  simp only [reconcile_data]
  exact assemble_isSome _ _ _ _ _ h1 h2

def uRow (lg : String) (em : Option String) (pl pm : String) (d : ℚ) : UploadedRow :=
  { login := lg, customer_email := em, plan := some pl, amount := d
    disbursement_amount := d, payment_method := some pm, proof := "p", status := "Disbursed"
    requested_time := "t1", approved_time := "t2", disbursed_time := "t3" }

def uC9 : List UploadedRow := [uRow "7" none "CFD" "USDT-TRC20" 5]

def pC9 : List PastedRow := [⟨"8", 5, none, "ALT"⟩]

/-- C9 counterexample: a filtered authoritative record whose Customer Email
is missing makes `reconcile_data` raise (modelled by `none`) instead of
classifying the record, refuting the claim that the engine completes under
missing identity fields. -/
theorem c9_counterexample :
    reconcile_data uC9 pC9 "Forex" = none ∧
    (filteredUploaded uC9 pC9 "Forex").length = 1 := by
  decide

def uW9 : List UploadedRow := [uRow "7" (some "w@x") "CFD" "USDT-TRC20" 5]

def pW9 : List PastedRow := [⟨"8", 5, none, "ALT"⟩]

/-- C9 witness: with the email present the same run completes. -/
theorem c9_witness :
    ((∀ row ∈ filteredUploaded uW9 pW9 "Forex", row.customer_email ≠ none) ∧
      (∀ q ∈ pW9, q.payment_method = "Riseworks" → q.customer_email ≠ none)) ∧
    (reconcile_data uW9 pW9 "Forex").isSome = true := by
  refine ⟨⟨by decide, by decide⟩, ?_⟩
  apply Option.isSome_iff_exists.mpr
  exact c9_completes_when_emails_present uW9 pW9 "Forex" (by decide) (by decide)

theorem riseworksRecords_nil (rw : List PastedRow) : riseworksRecords [] rw = [] := rfl

theorem altRecords_nil (alt : List PastedRow) : altRecords [] alt = [] := rfl

theorem pasteRowMatched_nil (q : PastedRow) : pasteRowMatched [] [] q = false := by
  unfold pasteRowMatched
  by_cases hm : q.payment_method = "Riseworks"
  · rw [if_pos hm]
    cases q.customer_email <;> simp
  · rw [if_neg hm]
    simp

/-- C4 (amended): when the payment-method filter selects no authoritative
rows the engine reconciles against the EMPTY authoritative set: nothing is
matched or discrepant, and every reported record becomes paste-only; but the
run's authoritative records are NOT classified as upload-only — upload_only
comes out empty, so they are absent from the reconciliation output
altogether (see the counterexample). -/
theorem c4_empty_filter_behaviour (uploaded : List UploadedRow) (pasted : List PastedRow)
    (section_type : String) (r : RecResults)
    (hf : filteredUploaded uploaded pasted section_type = [])
    (h : reconcile_data uploaded pasted section_type = some r) :
    r.matched = [] ∧ r.amount_differences = [] ∧ r.upload_only = [] ∧
    r.paste_only.length = pasted.length := by
  have hbase : reconcileBaseRecords uploaded pasted section_type = [] := by
    simp only [reconcileBaseRecords, hf, riseworksRecords_nil, altRecords_nil, ite_self,
      List.append_nil]
  have hmt : reconcileMatched uploaded pasted section_type = [] := by
    unfold reconcileMatched
    rw [hbase]
    rfl
  have hdf : reconcileDiffs uploaded pasted section_type = [] := by
    unfold reconcileDiffs
    rw [hbase]
    rfl
  have hek : reconcileEKeys uploaded pasted section_type = [] := by
    unfold reconcileEKeys
    rw [hmt, hdf]
    rfl
  have hlk : reconcileLKeys uploaded pasted section_type = [] := by
    unfold reconcileLKeys
    rw [hmt, hdf]
    rfl
  simp only [reconcile_data, hf, hmt, hdf, hek, hlk] at h
  simp only [uploadOnlyLoop, Option.some_bind] at h
  rcases Option.map_eq_some'.mp h with ⟨po, hpo, hr⟩
  have hpo_eq := pasteOnlyLoop_eq _ _ _ _ hpo
  subst hr
  refine ⟨rfl, rfl, rfl, ?_⟩
  have hfilter : pasted.filter (fun q => !pasteRowMatched [] [] q) = pasted := by
    apply List.filter_eq_self.mpr
    intro q _
    simp [pasteRowMatched_nil q]
  show po.length = pasted.length
  rw [hpo_eq, hfilter, List.length_map]

def uC4 : List UploadedRow := [uRow "7" (some "a@b") "CFD" "Riseworks" 5]

def pC4 : List PastedRow := [⟨"999", 5, none, "ALT"⟩]

def rC4 : RecResults :=
  { matched := [], amount_differences := [], upload_only := []
    paste_only := [⟨"ALT", "999", none, 5⟩]
    summary := ⟨0, 0, 1, 0, 0, 1, "Forex"⟩ }

/-- C4 counterexample: a Forex run whose uploaded section holds one record
(Riseworks label) while the pasted data carries only the ALT signal: the
method filter selects no rows, and the uploaded record is NOT classified
upload-only — `upload_only` is empty, the record simply disappears from the
output, contradicting the claim that every authoritative record of the run
becomes authoritative-only. -/
theorem c4_counterexample :
    reconcile_data uC4 pC4 "Forex" = some rC4 ∧
    (uC4.filter (sectionMask "Forex")).length = 1 ∧
    rC4.upload_only = [] := by
  refine ⟨by decide, by decide, rfl⟩

/-- C4 witness: the amended statement instantiated on the same concrete run. -/
theorem c4_witness :
    filteredUploaded uC4 pC4 "Forex" = [] ∧
    reconcile_data uC4 pC4 "Forex" = some rC4 ∧
    (rC4.matched = [] ∧ rC4.amount_differences = [] ∧ rC4.upload_only = [] ∧
      rC4.paste_only.length = pC4.length) := by
  refine ⟨by decide, by decide, ?_⟩
  exact c4_empty_filter_behaviour uC4 pC4 "Forex" rC4 (by decide) (by decide)

/-! ### Coverage accounting for the partition claim -/

/-- The row's normalised email key is among the matched email keys derived
from the run's matched and discrepant records (exactly the set the source
recomputes at lines 296-303 and 324-331). -/
def emailKeyMatched (r : RecResults) (row : UploadedRow) : Bool :=
  match row.customer_email with
  | some e => decide (normEmail e ∈ matchedEmailKeySet (r.matched ++ r.amount_differences))
  | none => false

def loginKeyMatched (r : RecResults) (row : UploadedRow) : Bool :=
  decide (row.login ∈ matchedLoginKeySet (r.matched ++ r.amount_differences))

/-- In how many result categories a filtered authoritative record is
accounted for: once per matched join key (email and/or login: the record was
aggregated into that match/discrepancy record) plus once if its projection
appears in upload_only. -/
def uploadCover (r : RecResults) (row : UploadedRow) : ℕ :=
  (if emailKeyMatched r row then 1 else 0) + (if loginKeyMatched r row then 1 else 0) +
    (if projUploadOnly row ∈ r.upload_only then 1 else 0)

def pasteKeyMatched (r : RecResults) (q : PastedRow) : Bool :=
  if q.payment_method = "Riseworks" then
    match q.customer_email with
    | some e => decide (normEmail e ∈ matchedEmailKeySet (r.matched ++ r.amount_differences))
    | none => false
  else decide (q.login ∈ matchedLoginKeySet (r.matched ++ r.amount_differences))

/-- In how many result categories a reported record is accounted for. -/
def pasteCover (r : RecResults) (q : PastedRow) : ℕ :=
  (if pasteKeyMatched r q then 1 else 0) + (if projPasteOnly q ∈ r.paste_only then 1 else 0)

theorem uploadRowMatched_of_proj {eKeys lKeys : List String} {x y : UploadedRow}
    (h : projUploadOnly x = projUploadOnly y) :
    uploadRowMatched eKeys lKeys x = uploadRowMatched eKeys lKeys y := by
  unfold projUploadOnly at h
  injection h with h1 h2 h3 h4 h5 h6 h7 h8 h9
  unfold uploadRowMatched
  rw [h1, h2]

theorem pasteRowMatched_of_proj {eKeys lKeys : List String} {x y : PastedRow}
    (h : projPasteOnly x = projPasteOnly y) :
    pasteRowMatched eKeys lKeys x = pasteRowMatched eKeys lKeys y := by
  unfold projPasteOnly at h
  unfold pasteRowMatched
  by_cases hx : x.payment_method = "Riseworks" <;> by_cases hy : y.payment_method = "Riseworks"
  · rw [if_pos hx, if_pos hy] at h ⊢
    injection h with h1 h2 h3 h4
    rw [h3]
  · rw [if_pos hx, if_neg hy] at h
    injection h with h1 h2 h3 h4
    exact absurd h1 (by decide)
  · rw [if_neg hx, if_pos hy] at h
    injection h with h1 h2 h3 h4
    exact absurd h1 (by decide)
  · rw [if_neg hx, if_neg hy] at h ⊢
    injection h with h1 h2 h3 h4
    rw [h2]

/-- Core membership facts about the two derived-category loops: a row lands
in the only-list exactly when its key is unmatched. -/
theorem coverage_core (eKeys lKeys : List String) (filtered : List UploadedRow)
    (pasted : List PastedRow) (uo : List UploadOnlyRecord) (po : List PasteOnlyRecord)
    (huo : uploadOnlyLoop eKeys lKeys filtered = some uo)
    (hpo : pasteOnlyLoop eKeys lKeys pasted = some po) :
    (∀ row ∈ filtered,
        (uploadRowMatched eKeys lKeys row = false → projUploadOnly row ∈ uo) ∧
        (uploadRowMatched eKeys lKeys row = true → projUploadOnly row ∉ uo)) ∧
    (∀ q ∈ pasted,
        (pasteRowMatched eKeys lKeys q = false → projPasteOnly q ∈ po) ∧
        (pasteRowMatched eKeys lKeys q = true → projPasteOnly q ∉ po)) := by
  have huo_eq := uploadOnlyLoop_eq _ _ _ _ huo
  have hpo_eq := pasteOnlyLoop_eq _ _ _ _ hpo
  constructor
  · intro row hrow
    constructor
    · intro hfalse
      rw [huo_eq]
      exact List.mem_map_of_mem _ (List.mem_filter.mpr ⟨hrow, by simp [hfalse]⟩)
    · intro htrue hmem
      rw [huo_eq] at hmem
      rcases List.mem_map.mp hmem with ⟨x, hxf, hproj⟩
      have hx := (List.mem_filter.mp hxf).2
      have hsame := @uploadRowMatched_of_proj eKeys lKeys _ _ hproj
      rw [hsame, htrue] at hx
      simp at hx
  · intro q hq
    constructor
    · intro hfalse
      rw [hpo_eq]
      exact List.mem_map_of_mem _ (List.mem_filter.mpr ⟨hq, by simp [hfalse]⟩)
    · intro htrue hmem
      rw [hpo_eq] at hmem
      rcases List.mem_map.mp hmem with ⟨x, hxf, hproj⟩
      have hx := (List.mem_filter.mp hxf).2
      have hsame := @pasteRowMatched_of_proj eKeys lKeys _ _ hproj
      rw [hsame, htrue] at hx
      simp at hx

/-- C1 (amended): on the reported side `matched ∪ discrepant ∪ paste_only`
covers every reported record exactly once; on the authoritative side
`matched ∪ discrepant ∪ upload_only` covers every filtered record AT LEAST
once, and exactly once UNLESS both the record's email key and its login key
are matched join keys, in which case the record is aggregated once by the
email join and once by the login join (coverage 2). -/
theorem c1_partition_coverage (uploaded : List UploadedRow) (pasted : List PastedRow)
    (section_type : String) (r : RecResults)
    (h : reconcile_data uploaded pasted section_type = some r) :
    (∀ row ∈ filteredUploaded uploaded pasted section_type,
        1 ≤ uploadCover r row ∧
          (uploadCover r row = 1 ∨
            (emailKeyMatched r row = true ∧ loginKeyMatched r row = true ∧
              uploadCover r row = 2))) ∧
    (∀ q ∈ pasted, pasteCover r q = 1) := by
  simp only [reconcile_data] at h
  rcases Option.bind_eq_some.mp h with ⟨uo, huo, hmap⟩
  rcases Option.map_eq_some'.mp hmap with ⟨po, hpo, hr⟩
  have hcore := coverage_core _ _ _ _ _ _ huo hpo
  have hmatched : r.matched = reconcileMatched uploaded pasted section_type := by rw [← hr]
  have hdiffs : r.amount_differences = reconcileDiffs uploaded pasted section_type := by
    rw [← hr]
  have huor : r.upload_only = uo := by rw [← hr]
  have hpor : r.paste_only = po := by rw [← hr]
  have hkeysE : matchedEmailKeySet (r.matched ++ r.amount_differences) =
      reconcileEKeys uploaded pasted section_type := by
    rw [hmatched, hdiffs]; rfl
  have hkeysL : matchedLoginKeySet (r.matched ++ r.amount_differences) =
      reconcileLKeys uploaded pasted section_type := by
    rw [hmatched, hdiffs]; rfl
  constructor
  · intro row hrow
    obtain ⟨hin, hout⟩ := hcore.1 row hrow
    have hrel : uploadRowMatched (reconcileEKeys uploaded pasted section_type)
        (reconcileLKeys uploaded pasted section_type) row =
        (emailKeyMatched r row || loginKeyMatched r row) := by
      unfold uploadRowMatched emailKeyMatched loginKeyMatched
      rw [hkeysE, hkeysL]
    cases hbe : emailKeyMatched r row <;> cases hbl : loginKeyMatched r row
    · have hmem : projUploadOnly row ∈ r.upload_only := by
        rw [huor]
        exact hin (by rw [hrel, hbe, hbl]; rfl)
      have : uploadCover r row = 1 := by
        unfold uploadCover
        rw [hbe, hbl, if_pos hmem]
        decide
      exact ⟨by omega, Or.inl this⟩
    · have hmem : projUploadOnly row ∉ r.upload_only := by
        rw [huor]
        exact hout (by rw [hrel, hbe, hbl]; rfl)
      have : uploadCover r row = 1 := by
        unfold uploadCover
        rw [hbe, hbl, if_neg hmem]
        decide
      exact ⟨by omega, Or.inl this⟩
    · have hmem : projUploadOnly row ∉ r.upload_only := by
        rw [huor]
        exact hout (by rw [hrel, hbe, hbl]; rfl)
      have : uploadCover r row = 1 := by
        unfold uploadCover
        rw [hbe, hbl, if_neg hmem]
        decide
      exact ⟨by omega, Or.inl this⟩
    · have hmem : projUploadOnly row ∉ r.upload_only := by
        rw [huor]
        exact hout (by rw [hrel, hbe, hbl]; rfl)
      have : uploadCover r row = 2 := by
        unfold uploadCover
        rw [hbe, hbl, if_neg hmem]
        decide
      exact ⟨by omega, Or.inr ⟨rfl, rfl, this⟩⟩
  · intro q hq
    obtain ⟨hin, hout⟩ := hcore.2 q hq
    have hrel : pasteRowMatched (reconcileEKeys uploaded pasted section_type)
        (reconcileLKeys uploaded pasted section_type) q = pasteKeyMatched r q := by
      unfold pasteRowMatched pasteKeyMatched
      rw [hkeysE, hkeysL]
    cases hb : pasteKeyMatched r q
    · have hmem : projPasteOnly q ∈ r.paste_only := by
        rw [hpor]
        exact hin (by rw [hrel, hb])
      unfold pasteCover
      rw [hb, if_pos hmem]
      decide
    · have hmem : projPasteOnly q ∉ r.paste_only := by
        rw [hpor]
        exact hout (by rw [hrel, hb])
      unfold pasteCover
      rw [hb, if_neg hmem]
      decide

section ConcreteRuns

attribute [local semireducible] Rat.add Rat.mul Rat.sub Rat.inv

def uC1 : List UploadedRow := [uRow "L1" (some "e@x") "CFD" "Riseworks" 10]

def pC1 : List PastedRow := [⟨"13", 10, some "e@x", "Riseworks"⟩, ⟨"L1", 5, none, "ALT"⟩]

def rC1 : RecResults :=
  { matched := [⟨"Riseworks", some "e@x", "L1", 10, 10, none, "p", "Disbursed", "t1", "t2", "t3"⟩]
    amount_differences :=
      [⟨"ALT", some "e@x", "L1", 10, 5, some 5, "p", "Disbursed", "t1", "t2", "t3"⟩]
    upload_only := []
    paste_only := []
    summary := ⟨1, 0, 0, 1, 1, 2, "Forex"⟩ }

/-- C1 counterexample: one filtered authoritative record whose email is
matched by the email join (MATCHED) and whose login is matched by the login
join (DISCREPANT): the record is accounted for by TWO result categories
(coverage 2, and upload_only is empty), so the partition is not
exactly-once. -/
theorem c1_counterexample :
    reconcile_data uC1 pC1 "Forex" = some rC1 ∧
    uRow "L1" (some "e@x") "CFD" "Riseworks" 10 ∈ filteredUploaded uC1 pC1 "Forex" ∧
    uploadCover rC1 (uRow "L1" (some "e@x") "CFD" "Riseworks" 10) = 2 := by
  exact ⟨by decide, by decide, by decide⟩

def uW1 : List UploadedRow := [uRow "5" (some "a@b") "CFD" "USDT" 10]

def pW1 : List PastedRow := [⟨"5", 10, none, "ALT"⟩]

def rW1 : RecResults :=
  { matched := [⟨"ALT", some "a@b", "5", 10, 10, none, "p", "Disbursed", "t1", "t2", "t3"⟩]
    amount_differences := []
    upload_only := []
    paste_only := []
    summary := ⟨1, 0, 0, 0, 1, 1, "Forex"⟩ }

/-- C1 witness: the amended coverage statement instantiated on a concrete
single-match run. -/
theorem c1_witness :
    reconcile_data uW1 pW1 "Forex" = some rW1 ∧
    uRow "5" (some "a@b") "CFD" "USDT" 10 ∈ filteredUploaded uW1 pW1 "Forex" ∧
    (1 ≤ uploadCover rW1 (uRow "5" (some "a@b") "CFD" "USDT" 10) ∧
      (uploadCover rW1 (uRow "5" (some "a@b") "CFD" "USDT" 10) = 1 ∨
        (emailKeyMatched rW1 (uRow "5" (some "a@b") "CFD" "USDT" 10) = true ∧
          loginKeyMatched rW1 (uRow "5" (some "a@b") "CFD" "USDT" 10) = true ∧
          uploadCover rW1 (uRow "5" (some "a@b") "CFD" "USDT" 10) = 2))) ∧
    pasteCover rW1 ⟨"5", 10, none, "ALT"⟩ = 1 := by
  have hr : reconcile_data uW1 pW1 "Forex" = some rW1 := by decide
  have h := c1_partition_coverage uW1 pW1 "Forex" rW1 hr
  exact ⟨hr, by decide, h.1 _ (by decide), h.2 _ (by decide)⟩

/-- C2 counterexample: the claim's named boundary instance X=100.00,
Y=100.01.  In exact rational arithmetic |X - Y| = 0.01 <= 0.01, so the
claim says MATCHED; but the program holds Y as the double fl(100.01) (above
100.01 by ~5.1e-15) and computes abs(X - Y) <= 0.01 on doubles, where the
rounded difference exceeds fl(0.01) — the classification is DISCREPANT. -/
theorem c2_counterexample :
    |(100 : ℚ) - 10001 / 100| ≤ 1 / 100 ∧
    roundB64 (10001 / 100) = 7037578105208177 / 70368744177664 ∧
    ¬(|floatSub 100 (roundB64 (10001 / 100))| ≤ pyPointZeroOne) ∧
    withinTolerance ⟨"Riseworks", some "e@x", "L", 100, roundB64 (10001 / 100), none,
      "p", "Disbursed", "t1", "t2", "t3"⟩ = false := by
  refine ⟨by decide, by decide, by decide, by decide⟩

def uC2 : List UploadedRow :=
  [uRow "1" (some "m@x") "CFD" "Riseworks" 100, uRow "2" (some "n@x") "CFD" "Riseworks" 100]

def pC2 : List PastedRow :=
  [⟨"1", 100, some "m@x", "Riseworks"⟩, ⟨"2", 10002 / 100, some "n@x", "Riseworks"⟩]

def rC2 : RecResults :=
  { matched :=
      [⟨"Riseworks", some "m@x", "1", 100, 100, none, "p", "Disbursed", "t1", "t2", "t3"⟩]
    amount_differences :=
      [⟨"Riseworks", some "n@x", "2", 100, 10002 / 100,
        some (mkRat (-5764607523034235) (2 ^ 58)), "p", "Disbursed", "t1", "t2", "t3"⟩]
    upload_only := []
    paste_only := []
    summary := ⟨1, 0, 0, 1, 2, 2, "Forex"⟩ }

/-- C2 witness: X=100.00 vs Y=100.00 is classified MATCHED, X=100.00 vs
Y=100.02 is classified DISCREPANT carrying the float difference
fl(100.00 - 100.02) = -0.0200000000000000004163... (not exactly -0.02), and
the classification facts follow from the boundary theorem instantiated at
this run. -/
theorem c2_witness :
    reconcile_data uC2 pC2 "Forex" = some rC2 ∧
    rC2.matched.length = 1 ∧ rC2.amount_differences.length = 1 ∧
    |floatSub (rC2.matched.getD 0 default).excel_disbursement_amount
        (rC2.matched.getD 0 default).pasted_amount| ≤ pyPointZeroOne ∧
    (rC2.amount_differences.getD 0 default).amount_difference =
      some (floatSub (rC2.amount_differences.getD 0 default).excel_disbursement_amount
        (rC2.amount_differences.getD 0 default).pasted_amount) ∧
    ¬(|floatSub (rC2.amount_differences.getD 0 default).excel_disbursement_amount
        (rC2.amount_differences.getD 0 default).pasted_amount| ≤ pyPointZeroOne) ∧
    (rC2.amount_differences.getD 0 default).amount_difference =
      some (mkRat (-5764607523034235) (2 ^ 58)) := by
  have hr : reconcile_data uC2 pC2 "Forex" = some rC2 := by decide
  have h := c2_match_discrepancy_boundary uC2 pC2 "Forex" rC2 hr
  exact ⟨hr, by decide, by decide, (h.1 _ (by decide)).1, (h.2 _ (by decide)).2,
    (h.2 _ (by decide)).1, by decide⟩

end ConcreteRuns

/-! ### Window/time reconciler: `Zen_BP_CB_futures.py` -/

/-- `df.duplicated(subset=[key], keep=False)`: marks EVERY row whose key
occurs on more than one row (used only for the warning messages). -/
def duplicatedMaskKeepFalse {α : Type} (key : α → String) (l : List α) : List Bool :=
  l.map (fun x => decide (2 ≤ (l.filter (fun y => key y == key x)).length))

def dropDupAux {α : Type} (key : α → String) (seen : List String) : List α → List α
  | [] => []
  | x :: xs =>
    if key x ∈ seen then dropDupAux key seen xs
    else x :: dropDupAux key (key x :: seen) xs

/-- `df.drop_duplicates(subset=[key], keep="first")`: keeps the FIRST row of
every key, removing later copies — the operation all four feeds of the
window pipeline (ZEN settlement, BridgerPay settlement, PayProcc, merged
order lists) apply after warning about duplicates. -/
def drop_duplicates_keep_first {α : Type} (key : α → String) (l : List α) : List α :=
  dropDupAux key [] l

theorem dropDupAux_find? {α : Type} (key : α → String) :
    ∀ (l : List α) (seen : List String) (k : String), k ∉ seen →
    (dropDupAux key seen l).find? (fun x => key x == k) = l.find? (fun x => key x == k)
  | [], seen, k, hk => rfl
  | x :: xs, seen, k, hk => by
    by_cases hx : key x ∈ seen
    · rw [dropDupAux, if_pos hx]
      have hne : (key x == k) = false := by
        simp only [beq_eq_false_iff_ne]
        intro hcontra
        exact hk (hcontra ▸ hx)
      rw [List.find?_cons, hne]
      exact dropDupAux_find? key xs seen k hk
    · rw [dropDupAux, if_neg hx]
      by_cases hxk : key x = k
      · rw [List.find?_cons, List.find?_cons]
        simp only [hxk, beq_self_eq_true]
      · have hne : (key x == k) = false := by simp [hxk]
        rw [List.find?_cons, List.find?_cons, hne]
        refine dropDupAux_find? key xs (key x :: seen) k ?_
        intro hmem
        rcases List.mem_cons.mp hmem with hc | hc
        · exact hxk hc.symm
        · exact hk hc

theorem dropDupAux_filter_nil {α : Type} (key : α → String) :
    ∀ (l : List α) (seen : List String) (k : String), k ∈ seen →
    ((dropDupAux key seen l).filter (fun x => key x == k)).length = 0
  | [], seen, k, hk => rfl
  | x :: xs, seen, k, hk => by
    by_cases hx : key x ∈ seen
    · rw [dropDupAux, if_pos hx]
      exact dropDupAux_filter_nil key xs seen k hk
    · rw [dropDupAux, if_neg hx]
      have hne : (key x == k) = false := by
        simp only [beq_eq_false_iff_ne]
        intro hcontra
        exact hx (hcontra ▸ hk)
      rw [List.filter_cons, hne]
      simp only [Bool.false_eq_true, if_false]
      exact dropDupAux_filter_nil key xs (key x :: seen) k (List.mem_cons_of_mem _ hk)

theorem dropDupAux_count_le_one {α : Type} (key : α → String) :
    ∀ (l : List α) (seen : List String) (k : String),
    ((dropDupAux key seen l).filter (fun x => key x == k)).length ≤ 1
  | [], seen, k => by simp [dropDupAux]
  | x :: xs, seen, k => by
    by_cases hx : key x ∈ seen
    · rw [dropDupAux, if_pos hx]
      exact dropDupAux_count_le_one key xs seen k
    · rw [dropDupAux, if_neg hx]
      rw [List.filter_cons]
      by_cases hxk : (key x == k) = true
      · rw [hxk]
        simp only [if_true, List.length_cons]
        have h0 := dropDupAux_filter_nil key xs (key x :: seen) k
          (by rw [← beq_iff_eq.mp hxk]; exact List.mem_cons_self _ _)
        omega
      · rw [Bool.not_eq_true] at hxk
        rw [hxk]
        simp only [Bool.false_eq_true, if_false]
        exact dropDupAux_count_le_one key xs (key x :: seen) k

/-- C3 (amended): the duplicate-removal step of the window pipeline is
keep-first, not drop-all: for every id k the cleaned set holds at most one
row with that id, and the row it finds for k is exactly the FIRST row of the
input bearing k (in particular an id present in the input is still present
after cleaning). -/
theorem c3_duplicate_removal_keeps_first {α : Type} (key : α → String)
    (l : List α) (k : String) :
    ((drop_duplicates_keep_first key l).filter (fun x => key x == k)).length ≤ 1 ∧
    (drop_duplicates_keep_first key l).find? (fun x => key x == k) =
      l.find? (fun x => key x == k) := by
  exact ⟨dropDupAux_count_le_one key l [] k,
    dropDupAux_find? key l [] k (by simp)⟩

/-- One row of a settlement feed, reduced to its natural id column and its
amount. -/
structure SettlementRow where
  id : String
  amount : ℚ
  deriving DecidableEq, Repr, Inhabited

def dupRows : List SettlementRow := [⟨"T1", 5⟩, ⟨"T1", 7⟩, ⟨"T2", 3⟩]

/-- C3 counterexample: with two rows bearing id T1, `duplicated(keep=False)`
marks both (so the warning counts 2 removed), but `drop_duplicates`
with keep="first" RETAINS the first T1 row: one copy is kept, not zero,
refuting drop-all. -/
theorem c3_counterexample :
    duplicatedMaskKeepFalse SettlementRow.id dupRows = [true, true, false] ∧
    drop_duplicates_keep_first SettlementRow.id dupRows = [⟨"T1", 5⟩, ⟨"T2", 3⟩] ∧
    ((drop_duplicates_keep_first SettlementRow.id dupRows).filter
      (fun x => x.id == "T1")).length = 1 := by
  decide

/-! ### C7: unmatched-PSP catch-all reclassification (tab_zen / tab_coins) -/

/-- One cleaned authoritative (PSP-side) settlement row: its merchant
transaction id and its transaction amount. -/
structure ZenRow where
  merchant_transaction_id : String
  transaction_amount : ℚ
  deriving DecidableEq, Repr, Inhabited

/-- One cleaned order-list row after column selection:
[Transaction ID, Plan Type, Grand Total]. -/
structure OrdRow where
  transaction_id : String
  plan_type : Option String
  grand_total : ℚ
  deriving DecidableEq, Repr, Inhabited

/-- One row of the merged export frame. -/
structure MergedRow where
  merchant_transaction_id : String
  transaction_amount : ℚ
  plan_type : Option String
  grand_total : ℚ
  deriving DecidableEq, Repr, Inhabited

/-- `df_zen_filt.merge(df_ord_filt, left_on="merchant_transaction_id",
right_on="Transaction ID", how="inner")`: every (zen row, order row) pair
with equal ids produces one merged row. -/
def zen_inner_merge (zen : List ZenRow) (ord : List OrdRow) : List MergedRow :=
  zen.flatMap (fun z =>
    (ord.filter (fun o => o.transaction_id == z.merchant_transaction_id)).map
      (fun o => ⟨z.merchant_transaction_id, z.transaction_amount,
                 o.plan_type, o.grand_total⟩))

/-- `df_zen_filt[~df_zen_filt["merchant_transaction_id"].isin(df_merged["merchant_transaction_id"])]`:
the cleaned PSP rows whose id never appears in the merge result. -/
def zen_unmatched_psp (zen : List ZenRow) (ord : List OrdRow) : List ZenRow :=
  zen.filter (fun z =>
    !((zen_inner_merge zen ord).any
      (fun m => m.merchant_transaction_id == z.merchant_transaction_id)))

/-- The reclassification applied to each unmatched PSP row:
`Plan Type = "CFD (Unmatched PSP)"`, `Grand Total = transaction_amount`. -/
def catchAllRow (z : ZenRow) : MergedRow :=
  ⟨z.merchant_transaction_id, z.transaction_amount,
   some "CFD (Unmatched PSP)", z.transaction_amount⟩

/-- `pd.concat([df_merged, unmatched_zen_psp])`: the final export frame whose
length the code reports as "Final total: ... transactions included in export". -/
def zen_final_export (zen : List ZenRow) (ord : List OrdRow) : List MergedRow :=
  zen_inner_merge zen ord ++ (zen_unmatched_psp zen ord).map catchAllRow

/-- The pipeline from the deduplicated feeds: both inputs first pass through
`drop_duplicates(keep="first")` on their id columns. -/
def zen_pipeline_export (zenRaw : List ZenRow) (ordRaw : List OrdRow) :
    List MergedRow :=
  zen_final_export (drop_duplicates_keep_first ZenRow.merchant_transaction_id zenRaw)
    (drop_duplicates_keep_first OrdRow.transaction_id ordRaw)

theorem filter_length_split {α : Type} (p : α → Bool) :
    ∀ l : List α,
    (l.filter p).length + (l.filter (fun x => !(p x))).length = l.length
  | [] => rfl
  | x :: xs => by
    have ih := filter_length_split p xs
    rw [List.filter_cons, List.filter_cons]
    cases hp : p x <;> simp <;> omega

theorem sum_map_ite01 {α : Type} (f : α → ℕ) (p : α → Bool) :
    ∀ l : List α, (∀ z ∈ l, f z = if p z then 1 else 0) →
    (l.map f).sum = (l.filter p).length
  | [], _ => rfl
  | x :: xs, h => by
    have ih := sum_map_ite01 f p xs (fun z hz => h z (List.mem_cons_of_mem _ hz))
    rw [List.map_cons, List.sum_cons, List.filter_cons,
        h x (List.mem_cons_self _ _)]
    cases hp : p x
    · simp only [Bool.false_eq_true, if_false]
      omega
    · simp
      omega

theorem zen_merge_any_iff (zen : List ZenRow) (ord : List OrdRow) (z : ZenRow)
    (hz : z ∈ zen) :
    (zen_inner_merge zen ord).any
        (fun m => m.merchant_transaction_id == z.merchant_transaction_id) =
      ord.any (fun o => o.transaction_id == z.merchant_transaction_id) := by
  rw [Bool.eq_iff_iff]
  simp only [List.any_eq_true]
  constructor
  · rintro ⟨m, hm, hbeq⟩
    rcases List.mem_flatMap.mp hm with ⟨z', hz', hmem⟩
    rcases List.mem_map.mp hmem with ⟨o, ho, hmo⟩
    have ho' := List.mem_filter.mp ho
    refine ⟨o, ho'.1, ?_⟩
    have h1 : o.transaction_id = z'.merchant_transaction_id := by
      have := ho'.2
      simpa [beq_iff_eq] using this
    have h2 : m.merchant_transaction_id = z'.merchant_transaction_id := by
      rw [← hmo]
    have h3 : m.merchant_transaction_id = z.merchant_transaction_id := by
      simpa [beq_iff_eq] using hbeq
    simp only [beq_iff_eq]
    rw [h1, ← h2, h3]
  · rintro ⟨o, ho, hbeq⟩
    refine ⟨⟨z.merchant_transaction_id, z.transaction_amount,
             o.plan_type, o.grand_total⟩, ?_, ?_⟩
    · exact List.mem_flatMap.mpr
        ⟨z, hz, List.mem_map.mpr ⟨o, List.mem_filter.mpr ⟨ho, hbeq⟩, rfl⟩⟩
    · simp

theorem zen_final_export_length (zen : List ZenRow) (ord : List OrdRow)
    (hord : ∀ k : String,
      ((ord.filter (fun o => o.transaction_id == k)).length ≤ 1)) :
    (zen_final_export zen ord).length = zen.length := by
  unfold zen_final_export
  rw [List.length_append, List.length_map]
  have hpt : ∀ z ∈ zen,
      ((ord.filter (fun o => o.transaction_id == z.merchant_transaction_id)).map
        (fun o => (⟨z.merchant_transaction_id, z.transaction_amount,
                    o.plan_type, o.grand_total⟩ : MergedRow))).length =
      if ord.any (fun o => o.transaction_id == z.merchant_transaction_id)
        then 1 else 0 := by
    intro z _
    rw [List.length_map]
    cases hany : ord.any (fun o => o.transaction_id == z.merchant_transaction_id)
    · rw [if_neg (by simp)]
      rw [List.filter_eq_nil_iff.mpr (List.any_eq_false.mp hany)]
      rfl
    · rw [if_pos rfl]
      have hle := hord z.merchant_transaction_id
      rcases List.any_eq_true.mp hany with ⟨o, ho, hpo⟩
      have hmem : o ∈ ord.filter
          (fun o => o.transaction_id == z.merchant_transaction_id) :=
        List.mem_filter.mpr ⟨ho, hpo⟩
      have hpos : 0 < (ord.filter
          (fun o => o.transaction_id == z.merchant_transaction_id)).length :=
        List.length_pos.mpr (by
          intro hnil
          rw [hnil] at hmem
          exact absurd hmem (List.not_mem_nil o))
      omega
  have hmerge : (zen_inner_merge zen ord).length =
      (zen.filter (fun z =>
        ord.any (fun o => o.transaction_id == z.merchant_transaction_id))).length := by
    unfold zen_inner_merge
    rw [List.length_flatMap]
    exact sum_map_ite01 _ _ zen hpt
  have hunmatched : zen_unmatched_psp zen ord =
      zen.filter (fun z =>
        !(ord.any (fun o => o.transaction_id == z.merchant_transaction_id))) := by
    unfold zen_unmatched_psp
    apply List.filter_congr
    intro z hz
    rw [zen_merge_any_iff zen ord z hz]
  rw [hmerge, hunmatched]
  exact filter_length_split _ zen

/-- C7: every cleaned PSP row whose id is absent from the inner join with the
cleaned order list is not dropped: its catch-all reclassification — Plan Type
"CFD (Unmatched PSP)" and its own transaction amount substituted as Grand
Total — appears in the final export, and the final export has exactly one row
per cleaned PSP row, so the reported "final total" accounts for 100% of the
cleaned authoritative-side rows. -/
theorem c7_unmatched_psp_catchall (zenRaw : List ZenRow) (ordRaw : List OrdRow)
    (z : ZenRow)
    (hz : z ∈ drop_duplicates_keep_first ZenRow.merchant_transaction_id zenRaw)
    (habs : ∀ m ∈ zen_inner_merge
        (drop_duplicates_keep_first ZenRow.merchant_transaction_id zenRaw)
        (drop_duplicates_keep_first OrdRow.transaction_id ordRaw),
      m.merchant_transaction_id ≠ z.merchant_transaction_id) :
    catchAllRow z ∈ zen_pipeline_export zenRaw ordRaw ∧
    (catchAllRow z).plan_type = some "CFD (Unmatched PSP)" ∧
    (catchAllRow z).grand_total = z.transaction_amount ∧
    (zen_pipeline_export zenRaw ordRaw).length =
      (drop_duplicates_keep_first ZenRow.merchant_transaction_id zenRaw).length := by
  refine ⟨?_, rfl, rfl, ?_⟩
  · unfold zen_pipeline_export zen_final_export
    apply List.mem_append_right
    apply List.mem_map.mpr
    refine ⟨z, ?_, rfl⟩
    apply List.mem_filter.mpr
    refine ⟨hz, ?_⟩
    have hfalse : (zen_inner_merge
        (drop_duplicates_keep_first ZenRow.merchant_transaction_id zenRaw)
        (drop_duplicates_keep_first OrdRow.transaction_id ordRaw)).any
        (fun m => m.merchant_transaction_id == z.merchant_transaction_id) = false :=
      List.any_eq_false.mpr (fun m hm => by
        simp only [beq_iff_eq]
        exact habs m hm)
    rw [hfalse]
    rfl
  · unfold zen_pipeline_export
    exact zen_final_export_length _ _
      (fun k => dropDupAux_count_le_one OrdRow.transaction_id ordRaw [] k)

def zenW : List ZenRow := [⟨"T1", 50⟩]

def ordW : List OrdRow := [⟨"T2", some "Futures", 9⟩]

theorem c7_witness :
    catchAllRow ⟨"T1", 50⟩ ∈ zen_pipeline_export zenW ordW ∧
    (catchAllRow ⟨"T1", 50⟩).plan_type = some "CFD (Unmatched PSP)" ∧
    (catchAllRow ⟨"T1", 50⟩).grand_total = (50 : ℚ) ∧
    (zen_pipeline_export zenW ordW).length =
      (drop_duplicates_keep_first ZenRow.merchant_transaction_id zenW).length :=
  c7_unmatched_psp_catchall zenW ordW ⟨"T1", 50⟩ (by decide) (by decide)

/-! ### C10: the implicit 2-hour order-list window offset -/

/-- `datetime.combine(date, time(h, m, s))` as a count of seconds: `d` is the
date as an ordinal day number, and the result is the timestamp in seconds. -/
def dtCombine (d h m s : ℤ) : ℤ :=
  d * 86400 + h * 3600 + m * 60 + s

/-- ZEN PSP window start: `datetime.combine(start_date, time(18, 0, 0))`. -/
def start_zen (d : ℤ) : ℤ := dtCombine d 18 0 0

/-- ZEN PSP window end: `datetime.combine(end_date, time(17, 59, 59))`. -/
def end_zen (d : ℤ) : ℤ := dtCombine d 17 59 59

/-- ZEN order-list window start: `datetime.combine(start_date, time(20, 0, 0))`. -/
def start_ord (d : ℤ) : ℤ := dtCombine d 20 0 0

/-- ZEN order-list window end: `datetime.combine(end_date, time(19, 59, 59))`. -/
def end_ord (d : ℤ) : ℤ := dtCombine d 19 59 59

/-- BridgerPay PSP window start: `datetime.combine(start_date_bp, time(0, 0, 0))`. -/
def start_proc (d : ℤ) : ℤ := dtCombine d 0 0 0

/-- BridgerPay PSP window end: `datetime.combine(end_date_bp, time(23, 59, 59))`. -/
def end_proc (d : ℤ) : ℤ := dtCombine d 23 59 59

/-- BridgerPay order-list window start:
`datetime.combine(start_date_bp, time(2, 0, 0))`. -/
def start_ord_bp (d : ℤ) : ℤ := dtCombine d 2 0 0

/-- BridgerPay order-list window end:
`datetime.combine(end_date_bp + timedelta(days=1), time(1, 59, 59))`. -/
def end_ord_bp (d : ℤ) : ℤ := dtCombine (d + 1) 1 59 59

/-- Coins Buy PSP window start: `datetime.combine(start_date_coins, time(0, 0, 0))`. -/
def start_created (d : ℤ) : ℤ := dtCombine d 0 0 0

/-- Coins Buy PSP window end: `datetime.combine(end_date_coins, time(23, 59, 59))`. -/
def end_created (d : ℤ) : ℤ := dtCombine d 23 59 59

/-- Coins Buy order-list window start:
`datetime.combine(start_date_coins, time(2, 0, 0))`. -/
def start_ord_coins (d : ℤ) : ℤ := dtCombine d 2 0 0

/-- Coins Buy order-list window end:
`datetime.combine(end_date_coins + timedelta(days=1), time(1, 59, 59))`. -/
def end_ord_coins (d : ℤ) : ℤ := dtCombine (d + 1) 1 59 59

/-- C10: in all three window pipelines (ZEN, BridgerPay, Coins Buy) the
order-list window is the PSP window shifted forward by exactly 2 hours
(7200 seconds), at both endpoints, for every choice of start and end date. -/
theorem c10_window_offset (s e : ℤ) :
    start_ord s = start_zen s + 7200 ∧ end_ord e = end_zen e + 7200 ∧
    start_ord_bp s = start_proc s + 7200 ∧ end_ord_bp e = end_proc e + 7200 ∧
    start_ord_coins s = start_created s + 7200 ∧
    end_ord_coins e = end_created e + 7200 := by
  refine ⟨?_, ?_, ?_, ?_, ?_, ?_⟩ <;>
    simp only [start_ord, start_zen, end_ord, end_zen, start_ord_bp, start_proc,
      end_ord_bp, end_proc, start_ord_coins, start_created, end_ord_coins,
      end_created, dtCombine] <;>
    ring
